import Mathlib

/-!
Shallow embedding of the URL-rewriting core of the fuckburl-bot repository
(src/replacer.rs), together with theorems checking the natural-language
specification against the code.

Text is modelled as a list of bytes (`List (Fin 256)`), matching the byte
strings that Rust `&str` values and `fancy_regex` byte ranges operate on.
All concrete inputs in this development are ASCII, so each `Char` of a Rust
string literal corresponds to exactly one byte.

The external collaborators of replacer.rs are embedded as follows:
- `fancy_regex`: each static pattern of the lazy-static catalog is compiled by
  hand into a byte-level matcher with leftmost-first (backtracking) semantics,
  including the negative lookbehind alternative of the boundary group.
- `url::Url` (reqwest::Url): a structure with the components the program
  touches, with `from_str`, `to_string`, `query_pairs`, `set_query`.
- `form_urlencoded`: the query parser and the re-encoding serializer used by
  `remove_pairs_if_key` (percent-encoding with the form-urlencoded byte set).
- `reqwest::get` redirect resolution: an explicit resolver oracle
  (`Resolver`), since the HTTP fetch itself is outside the program.
- `anyhow` errors and `.context(...)`: the inductive `AnyError`, with the Rust
  `?` operator translated to explicit matches on `Except`.
-/

set_option maxRecDepth 4000

abbrev Byte := Fin 256

/-- Build a byte from a numeral (values are taken mod 256). -/
def byte (n : Nat) : Byte := ⟨n % 256, Nat.mod_lt n (by omega)⟩

/-- Byte string of an ASCII Lean string literal (one byte per character). -/
def ascii (s : String) : List Byte := s.toList.map fun c => byte c.toNat

/-- ASCII letter test, the `[a-zA-Z]` class of the patterns. -/
def isAsciiLetter (b : Byte) : Bool :=
  (65 ≤ b.val && b.val ≤ 90) || (97 ≤ b.val && b.val ≤ 122)

/-- ASCII digit test, the `[0-9]` class. -/
def isDigitB (b : Byte) : Bool := 48 ≤ b.val && b.val ≤ 57

/-- Alphanumeric test, the `[0-9a-zA-Z]` class. -/
def isAlnumB (b : Byte) : Bool := isDigitB b || isAsciiLetter b

/-! ## form_urlencoded: percent-encoding serializer and parser

`remove_pairs_if_key` re-serializes the retained pairs with
`form_urlencoded::Serializer` and reads them with `Url::query_pairs`
(which wraps `form_urlencoded::parse`). -/

/-- Uppercase hex digit byte for a value below 16. -/
def hexUpper (n : Nat) : Byte := byte (if n < 10 then 48 + n else 55 + n)

/-- Bytes the form-urlencoded serializer leaves unescaped:
alphanumeric and `*`, `-`, `.`, `_`. -/
def isUnresB (b : Byte) : Bool :=
  isAlnumB b || b.val = 42 || b.val = 45 || b.val = 46 || b.val = 95

/-- Serializer encoding of one byte: space becomes `+`, unreserved bytes stay,
every other byte becomes `%XX` with uppercase hex. -/
def encByte (b : Byte) : List Byte :=
  if b.val = 32 then [byte 43]
  else if isUnresB b then [b]
  else [byte 37, hexUpper (b.val / 16), hexUpper (b.val % 16)]

/-- Serializer encoding of a byte string. -/
def encBytes : List Byte → List Byte
  | [] => []
  | b :: rest => encByte b ++ encBytes rest

/-- Hex digit test (either case), as accepted by the percent decoder. -/
def isHexB (b : Byte) : Bool :=
  (48 ≤ b.val && b.val ≤ 57) || (65 ≤ b.val && b.val ≤ 70) ||
    (97 ≤ b.val && b.val ≤ 102)

/-- Value of a hex digit byte. -/
def hexVal (b : Byte) : Nat :=
  if b.val ≤ 57 then b.val - 48 else if b.val ≤ 70 then b.val - 55 else b.val - 87

/-- Decoder used by `form_urlencoded::parse` (fuelled, structurally
recursive so that it reduces inside the kernel): `+` becomes space, `%XX`
with two hex digits becomes the byte, anything else passes through. One unit
of fuel is spent per consumed leading byte, so `length` fuel always
suffices. -/
def decBytesAux : Nat → List Byte → List Byte
  | 0, _ => []
  | _ + 1, [] => []
  | fuel + 1, b :: rest =>
    if b.val = 43 then byte 32 :: decBytesAux fuel rest
    else if b.val = 37 then
      match rest with
      | h :: l :: rest2 =>
        if isHexB h && isHexB l then
          byte (hexVal h * 16 + hexVal l) :: decBytesAux fuel rest2
        else b :: decBytesAux fuel (h :: l :: rest2)
      | _ => b :: decBytesAux fuel rest
    else b :: decBytesAux fuel rest

/-- Decoder entry point with exactly enough fuel. -/
def decBytes (s : List Byte) : List Byte := decBytesAux s.length s

theorem decBytesAux_nil (f : Nat) : decBytesAux f [] = [] := by
  cases f <;> rfl

theorem decBytesAux_congr (f1 : Nat) :
    ∀ (f2 : Nat) (s : List Byte), s.length ≤ f1 → s.length ≤ f2 →
      decBytesAux f1 s = decBytesAux f2 s := by
  induction f1 with
  | zero =>
    intro f2 s h1 h2
    have hs : s = [] := by
      cases s with
      | nil => rfl
      | cons b r => simp at h1
    subst hs
    rw [decBytesAux_nil, decBytesAux_nil]
  | succ f1 ih =>
    intro f2 s h1 h2
    cases s with
    | nil => rw [decBytesAux_nil, decBytesAux_nil]
    | cons b rest =>
      cases f2 with
      | zero => simp at h2
      | succ f2 =>
        have hr1 : rest.length ≤ f1 := by simp at h1; omega
        have hr2 : rest.length ≤ f2 := by simp at h2; omega
        by_cases h43 : b.val = 43
        · simp only [decBytesAux, if_pos h43, ih f2 rest hr1 hr2]
        · by_cases h37 : b.val = 37
          · cases rest with
            | nil =>
              simp only [decBytesAux, if_neg h43, if_pos h37]
              rw [decBytesAux_nil, decBytesAux_nil]
            | cons hd rest' =>
              cases rest' with
              | nil =>
                simp only [decBytesAux, if_neg h43, if_pos h37,
                  ih f2 [hd] (by simp at h1 ⊢; omega) (by simp at h2 ⊢; omega)]
              | cons l' rest2 =>
                have hq1 : rest2.length ≤ f1 := by simp at h1; omega
                have hq2 : rest2.length ≤ f2 := by simp at h2; omega
                by_cases hx : (isHexB hd && isHexB l') = true
                · simp only [decBytesAux, if_neg h43, if_pos h37, if_pos hx,
                    ih f2 rest2 hq1 hq2]
                · simp only [decBytesAux, if_neg h43, if_pos h37, if_neg hx,
                    ih f2 (hd :: l' :: rest2) hr1 hr2]
          · simp only [decBytesAux, if_neg h43, if_neg h37, ih f2 rest hr1 hr2]

/-- Split a query-pair segment at the first `=`, like `splitn(2, b'=')`;
with no `=` the value is empty. -/
def splitEq : List Byte → List Byte × List Byte
  | [] => ([], [])
  | b :: rest =>
    if b.val = 61 then ([], rest)
    else
      let p := splitEq rest
      (b :: p.1, p.2)

/-- Parser of a raw query string into decoded key/value pairs, following
`form_urlencoded::parse`: split on `&`, skip empty segments, split each
segment at the first `=`, percent-decode both sides. -/
def parseQueryRaw (q : List Byte) : List (List Byte × List Byte) :=
  ((q.splitOn (byte 38)).filter (· ≠ [])).map fun seg =>
    let p := splitEq seg
    (decBytes p.1, decBytes p.2)

/-- Serializer of decoded pairs back into a raw query string, following
`form_urlencoded::Serializer::append_pair` joined with `&`. -/
def serializePairs (ps : List (List Byte × List Byte)) : List Byte :=
  List.intercalate [byte 38] (ps.map fun p => encBytes p.1 ++ byte 61 :: encBytes p.2)

/-! ## The Url model (url crate, as used by replacer.rs) -/

/-- Components of a parsed `url::Url`. `cannotBeABase` marks URLs of
non-special schemes without an authority (for example `bilibili:com/x`),
which serialize as `scheme:path`. -/
structure Url where
  scheme : List Byte
  username : List Byte
  password : Option (List Byte)
  host : List Byte
  port : Option (List Byte)
  path : List Byte
  query : Option (List Byte)
  fragment : Option (List Byte)
  cannotBeABase : Bool
deriving DecidableEq

/-- Scheme bytes after the first: letters, digits, `+`, `-`, `.`. -/
def isSchemeByte (b : Byte) : Bool :=
  isAlnumB b || b.val = 43 || b.val = 45 || b.val = 46

/-- Scan for a scheme: collect scheme bytes up to a `:`. Returns the scheme
and the remainder after the colon, or `none` when a non-scheme byte or the
end of input is reached first. -/
def schemeScan : List Byte → Option (List Byte × List Byte)
  | [] => none
  | b :: rest =>
    if b.val = 58 then some ([], rest)
    else if isSchemeByte b then (schemeScan rest).map fun p => (b :: p.1, p.2)
    else none

/-- Split off the scheme of a URL string: the first byte must be an ASCII
letter and a `:` must terminate the scheme run. -/
def schemeSplit (s : List Byte) : Option (List Byte × List Byte) :=
  match s with
  | [] => none
  | b :: _ => if isAsciiLetter b then schemeScan s else none

/-- Split a list at the last occurrence of a byte value, if present. -/
def splitLastAt (v : Nat) (s : List Byte) : Option (List Byte × List Byte) :=
  match s with
  | [] => none
  | b :: rest =>
    match splitLastAt v rest with
    | some p => some (b :: p.1, p.2)
    | none => if b.val = v then some ([], rest) else none

/-- Lowercase an ASCII letter byte, as host normalization does. -/
def lowerB (b : Byte) : Byte :=
  if 65 ≤ b.val && b.val ≤ 90 then byte (b.val + 32) else b

/-- Bytes terminating the authority component: `/`, `?`, `#`. -/
def isAuthEnd (b : Byte) : Bool := b.val = 47 || b.val = 63 || b.val = 35

/-- Bytes terminating the path component: `?`, `#`. -/
def isPathEnd (b : Byte) : Bool := b.val = 63 || b.val = 35

/-- Parse the authority (`user:pass@host:port`) of a special-scheme URL.
Fails on an empty host or a non-numeric port, as `Url::from_str` does. -/
def parseAuthority (auth : List Byte) :
    Option (List Byte × Option (List Byte) × List Byte × Option (List Byte)) :=
  let p := match splitLastAt 64 auth with
    | some q => q
    | none => ([], auth)
  let userinfo := p.1
  let hostport := p.2
  let u := if splitLastAt 64 auth = none then ([], none) else
    match splitLastAt 58 userinfo with
    | some q => (q.1, if q.2 = [] then none else some q.2)
    | none => (userinfo, none)
  match splitLastAt 58 hostport with
  | some q =>
    if q.1 = [] then none
    else if q.2 = [] then some (u.1, u.2, q.1.map lowerB, none)
    else if q.2.all isDigitB then some (u.1, u.2, q.1.map lowerB, some q.2)
    else none
  | none => if hostport = [] then none else some (u.1, u.2, hostport.map lowerB, none)

/-- Read an optional query (after `?`) and fragment (after `#`) from the tail
of a URL string. -/
def parseQF (s : List Byte) : Option (List Byte) × Option (List Byte) :=
  match s with
  | b :: rest =>
    if b.val = 63 then
      let q := rest.takeWhile fun c => !(c.val = 35)
      let r := rest.drop q.length
      match r with
      | c :: rest2 => if c.val = 35 then (some q, some rest2) else (some q, none)
      | [] => (some q, none)
    else if b.val = 35 then (none, some rest)
    else (none, none)
  | [] => (none, none)

/-- Shallow embedding of `Url::from_str` for the URL shapes this program
produces: an absolute URL with a scheme. For `http`/`https` the authority is
parsed and an empty path serializes as `/`; other schemes without `//` parse
as cannot-be-a-base URLs (`scheme:path?query#fragment`). A string with no
valid scheme (such as a bare domain) fails, which is the
`RelativeUrlWithoutBase` error of the url crate. -/
def parseUrl (s : List Byte) : Option Url :=
  match schemeSplit s with
  | none => none
  | some (sch, rest) =>
    let schL := sch.map lowerB
    if (schL = ascii "http" || schL = ascii "https") then
      if (rest.take 2 = [byte 47, byte 47]) then
        let r2 := rest.drop 2
        let auth := r2.takeWhile fun b => !isAuthEnd b
        let r3 := r2.drop auth.length
        match parseAuthority auth with
        | none => none
        | some (user, pass, host, port) =>
          let path := r3.takeWhile fun b => !isPathEnd b
          let path := if path = [] then [byte 47] else path
          let qf := parseQF (r3.drop (r3.takeWhile fun b => !isPathEnd b).length)
          some {
            scheme := schL, username := user, password := pass, host := host,
            port := port, path := path, query := qf.1, fragment := qf.2,
            cannotBeABase := false }
      else none
    else
      if (rest.take 2 = [byte 47, byte 47]) then none
      else
        let path := rest.takeWhile fun b => !isPathEnd b
        let qf := parseQF (rest.drop path.length)
        some {
          scheme := schL, username := [], password := none, host := [],
          port := none, path := path, query := qf.1, fragment := qf.2,
          cannotBeABase := true }

/-- Shallow embedding of `Url::to_string`. -/
def urlToString (u : Url) : List Byte :=
  u.scheme ++ [byte 58] ++
  (if u.cannotBeABase then [] else
    [byte 47, byte 47] ++
    (if u.username = [] && u.password = none then []
     else u.username ++
       (match u.password with | none => [] | some p => byte 58 :: p) ++ [byte 64]) ++
    u.host ++
    (match u.port with | none => [] | some p => byte 58 :: p)) ++
  u.path ++
  (match u.query with | none => [] | some q => byte 63 :: q) ++
  (match u.fragment with | none => [] | some f => byte 35 :: f)

/-- Embedding of `Url::query_pairs`: parse the raw query (empty when absent)
with the form-urlencoded parser. -/
def Url.queryPairs (u : Url) : List (List Byte × List Byte) :=
  parseQueryRaw (u.query.getD [])

/-- Embedding of `RemovePairsIf::remove_pairs_if_key` for `Url`: re-serialize
the pairs whose key does not satisfy the predicate, then `set_query` with
`None` when the serializer output is empty. -/
def remove_pairs_if_key (pred : List Byte → Bool) (u : Url) : Url :=
  let q := serializePairs (u.queryPairs.filter fun p => !pred p.1)
  { u with query := if q = [] then none else some q }

/-- Embedding of `RemovePairsIf::keep_pairs_only_in`. -/
def keep_pairs_only_in (keys : List (List Byte)) (u : Url) : Url :=
  remove_pairs_if_key (fun k => !(keys.contains k)) u

/-- Embedding of `trim_bili_link`: keep only the `p` and `t` parameters. -/
def trim_bili_link (u : Url) : Url :=
  keep_pairs_only_in [ascii "p", ascii "t"] u

/-- Allowlist of `replace_weixin`. -/
def weixinKeys : List (List Byte) :=
  [ascii "__biz", ascii "mid", ascii "idx", ascii "sn"]

/-! ## The pattern catalog (fancy_regex, compiled by hand)

Every pattern of the lazy-static block is translated into a matcher
`.. t i : Option ..` giving the leftmost-first match length at byte position
`i` of `t` (plus capture extents where the rewrite template needs them).
Alternations are tried in pattern order via `firstSome`; greedy `?` and `*`
are resolved deterministically where no later part of the pattern can fail
(the trailing `\??(?:&?[^=&]*=[^=&]*)*` never fails), and via explicit
option lists where backtracking is possible. An unescaped `.` in a pattern
(for example in `b23.tv` and `bilibili.com`) matches any byte except
newline. -/

/-- Test whether `lit` is a prefix of `s`. -/
def litHead (lit s : List Byte) : Bool := decide (s.take lit.length = lit)

/-- Bytes matched by the `[^=&]` class. -/
def isQchar (b : Byte) : Bool := !(b.val = 61 || b.val = 38)

/-- Bytes matched by an unescaped `.` (any byte except newline). -/
def anyDot (b : Byte) : Bool := !(b.val = 10)

/-- One greedy iteration of the `&?[^=&]*=[^=&]*` star body: its length, or
`none` when no `=` follows the first run. -/
def bodyLen (s : List Byte) : Option Nat :=
  let d := match s with
    | b :: _ => if b.val = 38 then 1 else 0
    | [] => 0
  let s1 := s.drop d
  let k := (s1.takeWhile isQchar).length
  match s1.drop k with
  | b :: rest =>
    if b.val = 61 then some (d + k + 1 + (rest.takeWhile isQchar).length)
    else none
  | [] => none

/-- Greedy total length of `(?:&?[^=&]*=[^=&]*)*` on a suffix (fuelled; each
body iteration consumes at least the `=` byte, so `length + 1` fuel is always
enough). -/
def starLenAux (fuel : Nat) (s : List Byte) : Nat :=
  match fuel with
  | 0 => 0
  | fuel + 1 =>
    match bodyLen s with
    | none => 0
    | some n => n + starLenAux fuel (s.drop n)

/-- Greedy total length of the trailing parameter star. -/
def starLen (s : List Byte) : Nat := starLenAux (s.length + 1) s

/-- Length matched by a greedy `\??`. -/
def qmarkLen (s : List Byte) : Nat :=
  match s with
  | b :: _ => if b.val = 63 then 1 else 0
  | [] => 0

/-- Length matched by the common trailing `\??(?:&?[^=&]*=[^=&]*)*`. -/
def tailLen (s : List Byte) : Nat :=
  let q := qmarkLen s
  q + starLen (s.drop q)

/-- Length matched by a greedy `/?`. -/
def slashOptLen (s : List Byte) : Nat :=
  match s with
  | b :: _ => if b.val = 47 then 1 else 0
  | [] => 0

/-- Try alternation branches in order: each option is a consumed length, the
continuation receives it and may fail, forcing the next branch. -/
def firstSome {α : Type} (opts : List Nat) (f : Nat → Option α) : Option α :=
  match opts with
  | [] => none
  | a :: rest =>
    match f a with
    | some r => some r
    | none => firstSome rest f

def httpsLit : List Byte := ascii "https://"

def httpLit : List Byte := ascii "http://"

/-- Branches of an optional literal group such as `(www\.)?`: the literal
(greedy, tried first) and the empty alternative. -/
def optLit (lit s : List Byte) : List Nat :=
  (if litHead lit s then [lit.length] else []) ++ [0]

/-- Branches of the boundary group `(https?://|(?<![a-zA-Z]{1})|^)` at
position `i`: the scheme literals (greedy `s?` puts `https://` first), then
the zero-width negative lookbehind (succeeds when no byte precedes `i` or the
preceding byte is not an ASCII letter), then the zero-width `^`. -/
def boundaryOpts (t : List Byte) (i : Nat) : List Nat :=
  (if litHead httpsLit (t.drop i) then [8] else []) ++
  (if litHead httpLit (t.drop i) then [7] else []) ++
  (if i = 0 then [0]
   else if isAsciiLetter (t.getD (i - 1) (byte 0)) then [] else [0]) ++
  (if i = 0 then [0] else [])

def weixinLit : List Byte := ascii "mp.weixin.qq.com/s"

/-- Matcher of `WEIXIN_REGEX`:
`(https?://|(?<![a-zA-Z]{1})|^)mp\.weixin\.qq\.com/s\??(?:&?[^=&]*=[^=&]*)*`. -/
def weixinMatchAt (t : List Byte) (i : Nat) : Option Nat :=
  firstSome (boundaryOpts t i) fun b =>
    let s := t.drop (i + b)
    if litHead weixinLit s then
      some (b + weixinLit.length + tailLen (s.drop weixinLit.length))
    else none

def wwwDotLit : List Byte := ascii "www."

def biliLit : List Byte := ascii "bilibili"

def comVideoLit : List Byte := ascii "com/video/"

/-- Matcher of `BVIDEO_REGEX`:
`(?P<url>(boundary)(www\.)?bilibili.com/video/[0-9a-zA-Z]+/?)\??(...)*`
(the `url` capture is never used by `replace_btrack`). The dot of
`bilibili.com` is unescaped in the pattern and matches any byte but
newline. -/
def bvideoMatchAt (t : List Byte) (i : Nat) : Option Nat :=
  firstSome (boundaryOpts t i) fun b =>
    firstSome (optLit wwwDotLit (t.drop (i + b))) fun w =>
      let s := t.drop (i + b + w)
      if litHead biliLit s then
        match s.drop 8 with
        | c :: rest2 =>
          if anyDot c && litHead comVideoLit rest2 then
            let rest3 := rest2.drop comVideoLit.length
            let idl := (rest3.takeWhile isAlnumB).length
            if idl = 0 then none
            else
              let rest4 := rest3.drop idl
              let sl := slashOptLen rest4
              some (b + w + 8 + 1 + comVideoLit.length + idl + sl +
                tailLen (rest4.drop sl))
          else none
        | [] => none
      else none

def comReadLit : List Byte := ascii "com/read/mobile/"

/-- Matcher of `BARTICLE_REGEX`:
`(boundary)(www\.)?bilibili.com/read/mobile/(?P<cvid>[0-9]+)\??(...)*`.
Returns the match length, plus the absolute offset and length of the `cvid`
capture. -/
def barticleMatchAt (t : List Byte) (i : Nat) : Option (Nat × Nat × Nat) :=
  firstSome (boundaryOpts t i) fun b =>
    firstSome (optLit wwwDotLit (t.drop (i + b))) fun w =>
      let s := t.drop (i + b + w)
      if litHead biliLit s then
        match s.drop 8 with
        | c :: rest2 =>
          if anyDot c && litHead comReadLit rest2 then
            let rest3 := rest2.drop comReadLit.length
            let d := (rest3.takeWhile isDigitB).length
            if d = 0 then none
            else
              some (b + w + 8 + 1 + comReadLit.length + d + tailLen (rest3.drop d),
                i + b + w + 8 + 1 + comReadLit.length, d)
          else none
        | [] => none
      else none

def twitterLit : List Byte := ascii "twitter.com"

def statusLit : List Byte := ascii "/status/"

def wwwLit : List Byte := ascii "www"

def cDotLit : List Byte := ascii "c."

def vxLit : List Byte := ascii "vx"

/-- Bytes of the `[a-zA-Z0-9_]` class. -/
def isWordB (b : Byte) : Bool := isAlnumB b || b.val = 95

/-- Length of the `path` capture `/[a-zA-Z0-9_]+/status/[0-9]+` at the head
of a suffix. -/
def twPathLen (s : List Byte) : Option Nat :=
  match s with
  | b :: rest =>
    if b.val = 47 then
      let u := (rest.takeWhile isWordB).length
      if u = 0 then none
      else
        let rest2 := rest.drop u
        if litHead statusLit rest2 then
          let d := ((rest2.drop statusLit.length).takeWhile isDigitB).length
          if d = 0 then none else some (1 + u + statusLit.length + d)
        else none
    else none
  | [] => none

/-- Branches of `(www|c\.)?`. -/
def wwwcOpts (s : List Byte) : List Nat :=
  (if litHead wwwLit s then [3] else []) ++
  (if litHead cDotLit s then [2] else []) ++ [0]

/-- Matcher of `TWITTER_REGEX`:
`(boundary)(www|c\.)?(vx)?twitter\.com(?P<path>/[a-zA-Z0-9_]+/status/[0-9]+)\??(...)*`.
Returns the match length, plus the absolute offset and length of the `path`
capture. -/
def twitterMatchAt (t : List Byte) (i : Nat) : Option (Nat × Nat × Nat) :=
  firstSome (boundaryOpts t i) fun b =>
    firstSome (wwwcOpts (t.drop (i + b))) fun w =>
      firstSome (optLit vxLit (t.drop (i + b + w))) fun v =>
        let p := i + b + w + v
        let s := t.drop p
        if litHead twitterLit s then
          let s1 := s.drop twitterLit.length
          match twPathLen s1 with
          | none => none
          | some pl =>
            some (b + w + v + twitterLit.length + pl + tailLen (s1.drop pl),
              p + twitterLit.length, pl)
        else none

def itemLit : List Byte := ascii "item."

def mDotLit : List Byte := ascii "m."

def jdLit : List Byte := ascii "jd.com/product/"

def htmlLit : List Byte := ascii ".html"

/-- Matcher of `JD_REGEX`:
`(?P<url>(boundary)item\.(m\.)?jd\.com/product/[0-9]+\.html)\??(...)*`.
Returns the match length and the length of the `url` capture (which starts
at the match start). -/
def jdMatchAt (t : List Byte) (i : Nat) : Option (Nat × Nat) :=
  firstSome (boundaryOpts t i) fun b =>
    let s := t.drop (i + b)
    if litHead itemLit s then
      firstSome (optLit mDotLit (s.drop 5)) fun m =>
        let s2 := s.drop (5 + m)
        if litHead jdLit s2 then
          let s3 := s2.drop jdLit.length
          let d := (s3.takeWhile isDigitB).length
          if d = 0 then none
          else
            let s4 := s3.drop d
            if litHead htmlLit s4 then
              let ul := b + 5 + m + jdLit.length + d + htmlLit.length
              some (ul + tailLen (s4.drop htmlLit.length), ul)
            else none
        else none
    else none

def amazonLit : List Byte := ascii "amazon."

def comLit : List Byte := ascii "com"

def coLit : List Byte := ascii "co"

def dpLit : List Byte := ascii "dp/"

/-- Bytes of the `[a-zA-Z0-9%-]` slug class. -/
def isSlugB (b : Byte) : Bool := isAlnumB b || b.val = 37 || b.val = 45

/-- Branches of `(com|co(\.[a-zA-Z]+)?)` in pattern order: `com`, then `co`
with the greedy optional `\.[a-zA-Z]+`, then bare `co`. -/
def tldOpts (s : List Byte) : List Nat :=
  (if litHead comLit s then [3] else []) ++
  (if litHead coLit s then
    (match s.drop 2 with
     | c :: s2 =>
       if c.val = 46 then
         (let L := (s2.takeWhile isAsciiLetter).length
          if L = 0 then [2] else [2 + 1 + L, 2])
       else [2]
     | [] => [2])
   else [])

/-- Matcher of `AMAZON_REGEX`:
`(?P<domain>(boundary)(www\.)?amazon\.(com|co(\.[a-zA-Z]+)?)/)[a-zA-Z0-9%-]+/(?P<path>dp/[0-9a-zA-Z]+/?)\??(...)*`.
Returns the match length, the length of the `domain` capture (starting at the
match start), and the absolute offset and length of the `path` capture. -/
def amazonMatchAt (t : List Byte) (i : Nat) : Option (Nat × Nat × Nat × Nat) :=
  firstSome (boundaryOpts t i) fun b =>
    firstSome (optLit wwwDotLit (t.drop (i + b))) fun w =>
      let s := t.drop (i + b + w)
      if litHead amazonLit s then
        firstSome (tldOpts (s.drop 7)) fun tl =>
          match s.drop (7 + tl) with
          | c :: s3 =>
            if c.val = 47 then
              let domLen := b + w + 7 + tl + 1
              let slug := (s3.takeWhile isSlugB).length
              if slug = 0 then none
              else
                match s3.drop slug with
                | c2 :: s4 =>
                  if c2.val = 47 && litHead dpLit s4 then
                    let idl := ((s4.drop 3).takeWhile isAlnumB).length
                    if idl = 0 then none
                    else
                      let s5 := s4.drop (3 + idl)
                      let sl := slashOptLen s5
                      let pathL := 3 + idl + sl
                      some (domLen + slug + 1 + pathL + tailLen (s5.drop sl),
                        domLen, i + domLen + slug + 1, pathL)
                  else none
                | [] => none
            else none
          | [] => none
      else none

def sSlashLit : List Byte := ascii "/s"

def qkLit : List Byte := ascii "?k="

/-- Bytes of the `[a-zA-Z0-9%+-]` keyword class. -/
def isKwB (b : Byte) : Bool := isAlnumB b || b.val = 37 || b.val = 43 || b.val = 45

/-- Matcher of `AMAZON_SEARCH_REGEX`:
`(?P<domain>(boundary)(www\.)?amazon\.(com|co(\.[a-zA-Z]+)?)/s)(?P<keyword>\?k=[a-zA-Z0-9%+-]+)(?:&?[^=&]*=[^=&]*)*`.
Returns the match length, the length of the `domain` capture, and the
absolute offset and length of the `keyword` capture. -/
def amazonSearchMatchAt (t : List Byte) (i : Nat) : Option (Nat × Nat × Nat × Nat) :=
  firstSome (boundaryOpts t i) fun b =>
    firstSome (optLit wwwDotLit (t.drop (i + b))) fun w =>
      let s := t.drop (i + b + w)
      if litHead amazonLit s then
        firstSome (tldOpts (s.drop 7)) fun tl =>
          let s2 := s.drop (7 + tl)
          if litHead sSlashLit s2 then
            let domLen := b + w + 7 + tl + 2
            let s3 := s2.drop 2
            if litHead qkLit s3 then
              let kl := ((s3.drop 3).takeWhile isKwB).length
              if kl = 0 then none
              else
                let kwLen := 3 + kl
                some (domLen + kwLen + starLen (s3.drop kwLen), domLen,
                  i + domLen, kwLen)
            else none
          else none
      else none

def b23Lit : List Byte := ascii "b23"

def tvSlashLit : List Byte := ascii "tv/"

/-- Matcher of `BSHORT_REGEX`:
`((https?://|(?<![a-zA-Z]{1})|^)?b23.tv/[0-9a-zA-Z]+/?)\??(...)*`.
Unlike every other pattern the whole boundary group is optional (note the
trailing `?`), so an extra empty branch is always available and the
lookbehind constraint is not enforced. The dot of `b23.tv` is unescaped. -/
def bshortMatchAt (t : List Byte) (i : Nat) : Option Nat :=
  firstSome (boundaryOpts t i ++ [0]) fun b =>
    let s := t.drop (i + b)
    if litHead b23Lit s then
      match s.drop 3 with
      | c :: rest =>
        if anyDot c && litHead tvSlashLit rest then
          let rest2 := rest.drop 3
          let idl := (rest2.takeWhile isAlnumB).length
          if idl = 0 then none
          else
            let rest3 := rest2.drop idl
            let sl := slashOptLen rest3
            some (b + 3 + 1 + 3 + idl + sl + tailLen (rest3.drop sl))
        else none
      | [] => none
    else none

def xhsLit : List Byte := ascii "xhslink"

def comSlashLit : List Byte := ascii "com/"

/-- Matcher of `XIAOHONGSHU_REGEX`:
`((boundary)xhslink.com/[0-9a-zA-Z]+/?)\??(...)*` (unescaped dot). -/
def xhsMatchAt (t : List Byte) (i : Nat) : Option Nat :=
  firstSome (boundaryOpts t i) fun b =>
    let s := t.drop (i + b)
    if litHead xhsLit s then
      match s.drop 7 with
      | c :: rest =>
        if anyDot c && litHead comSlashLit rest then
          let rest2 := rest.drop 4
          let idl := (rest2.takeWhile isAlnumB).length
          if idl = 0 then none
          else
            let rest3 := rest2.drop idl
            let sl := slashOptLen rest3
            some (b + 7 + 1 + 4 + idl + sl + tailLen (rest3.drop sl))
        else none
      | [] => none
    else none

def tcoLit : List Byte := ascii "t.co/"

/-- Matcher of `TWITTER_SHORT_REGEX`:
`((boundary)t\.co/[0-9a-zA-Z]+/?)\??(...)*`. -/
def tcoMatchAt (t : List Byte) (i : Nat) : Option Nat :=
  firstSome (boundaryOpts t i) fun b =>
    let s := t.drop (i + b)
    if litHead tcoLit s then
      let rest := s.drop 5
      let idl := (rest.takeWhile isAlnumB).length
      if idl = 0 then none
      else
        let rest2 := rest.drop idl
        let sl := slashOptLen rest2
        some (b + 5 + idl + sl + tailLen (rest2.drop sl))
    else none

def vmLit : List Byte := ascii "vm"

def vtLit : List Byte := ascii "vt"

def tiktokLit : List Byte := ascii ".tiktok.com/"

def tSlashLit : List Byte := ascii "t/"

/-- Branches of the required `(vm|vt|www)` group. -/
def vmtOpts (s : List Byte) : List Nat :=
  (if litHead vmLit s then [2] else []) ++
  (if litHead vtLit s then [2] else []) ++
  (if litHead wwwLit s then [3] else [])

/-- Matcher of `TIKTOK_SHARE_REGEX`:
`((boundary)(vm|vt|www)\.tiktok\.com/(t/)?[0-9a-zA-Z]+/?)\??(...)*`. -/
def tiktokMatchAt (t : List Byte) (i : Nat) : Option Nat :=
  firstSome (boundaryOpts t i) fun b =>
    firstSome (vmtOpts (t.drop (i + b))) fun h =>
      let s := t.drop (i + b + h)
      if litHead tiktokLit s then
        let s2 := s.drop tiktokLit.length
        firstSome (optLit tSlashLit s2) fun ts =>
          let s3 := s2.drop ts
          let idl := (s3.takeWhile isAlnumB).length
          if idl = 0 then none
          else
            let s4 := s3.drop idl
            let sl := slashOptLen s4
            some (b + h + tiktokLit.length + ts + idl + sl + tailLen (s4.drop sl))
      else none

/-! ## find_iter / replace / replace_all (fancy_regex engine operations) -/

/-- The bytes of the match `(start, len)` in the original text, the
`Match::as_str` slice. -/
def extract (t : List Byte) (i len : Nat) : List Byte := (t.drop i).take len

/-- Embedding of `String::replace_range` on byte strings (for the in-bounds
ranges exercised here; the Rust function panics out of bounds). -/
def replaceRange (s : List Byte) (i len : Nat) (r : List Byte) : List Byte :=
  s.take i ++ r ++ s.drop (i + len)

/-- Scan forward (fuelled) towards the first position at or after `i` where
the matcher succeeds; leftmost-first search. -/
def findFromAux (f : List Byte → Nat → Option Nat) (t : List Byte) :
    Nat → Nat → Option (Nat × Nat)
  | 0, _ => none
  | fuel + 1, i =>
    match f t i with
    | some len => some (i, len)
    | none => if i < t.length then findFromAux f t fuel (i + 1) else none

/-- Successive non-overlapping leftmost matches, continuing after each match
end, as `Regex::find_iter` yields them (the `Err` arm of the iterator never
fires in this embedding). -/
def findIterAux (f : List Byte → Nat → Option Nat) (t : List Byte) :
    Nat → Nat → List (Nat × Nat)
  | 0, _ => []
  | fuel + 1, i =>
    match findFromAux f t (t.length + 1 - i) i with
    | none => []
    | some (j, len) =>
      (j, len) :: findIterAux f t fuel (j + (if len = 0 then 1 else len))

/-- All matches of a pattern in a text, in increasing position order. -/
def reFindIter (f : List Byte → Nat → Option Nat) (t : List Byte) : List (Nat × Nat) :=
  findIterAux f t (t.length + 1) 0

/-- Leftmost-first search for a matcher that also yields the expanded
replacement text. -/
def rfindFromAux (f : List Byte → Nat → Option (Nat × List Byte)) (t : List Byte) :
    Nat → Nat → Option (Nat × Nat × List Byte)
  | 0, _ => none
  | fuel + 1, i =>
    match f t i with
    | some (len, r) => some (i, len, r)
    | none => if i < t.length then rfindFromAux f t fuel (i + 1) else none

/-- Embedding of `Regex::replace`: rewrite only the leftmost match. -/
def reReplaceFirst (f : List Byte → Nat → Option (Nat × List Byte)) (t : List Byte) :
    List Byte :=
  match rfindFromAux f t (t.length + 1) 0 with
  | none => t
  | some (j, len, r) => t.take j ++ r ++ t.drop (j + len)

/-- Embedding of `Regex::replace_all`: copy the text between matches and
insert each replacement, building a fresh output string (never mutating the
scanned text). -/
def reReplaceAllAux (f : List Byte → Nat → Option (Nat × List Byte)) (t : List Byte) :
    Nat → Nat → List Byte
  | 0, i => t.drop i
  | fuel + 1, i =>
    match rfindFromAux f t (t.length + 1 - i) i with
    | none => t.drop i
    | some (j, len, r) =>
      if len = 0 then t.drop i
      else (t.drop i).take (j - i) ++ r ++ reReplaceAllAux f t fuel (j + len)

/-- Rewrite every match, leftmost first. -/
def reReplaceAll (f : List Byte → Nat → Option (Nat × List Byte)) (t : List Byte) :
    List Byte :=
  reReplaceAllAux f t (t.length + 1) 0

/-! ## Redirect resolution and errors -/

/-- Embedding of `anyhow::Error` with `.context` layers. -/
inductive AnyError where
  | root : List Byte → AnyError
  | context : List Byte → AnyError → AnyError
deriving DecidableEq

instance {ε α : Type} [DecidableEq ε] [DecidableEq α] : DecidableEq (Except ε α) :=
  fun x y =>
  match x, y with
  | .ok a, .ok b =>
    if h : a = b then .isTrue (h ▸ rfl) else .isFalse fun hc => h (by injection hc)
  | .error a, .error b =>
    if h : a = b then .isTrue (h ▸ rfl) else .isFalse fun hc => h (by injection hc)
  | .ok _, .error _ => .isFalse fun hc => Except.noConfusion hc
  | .error _, .ok _ => .isFalse fun hc => Except.noConfusion hc

/-- The outside world of `reqwest::get`: maps a URL string to the final URL
after redirects, or to a transport error message. -/
def Resolver : Type := List Byte → Except (List Byte) Url

/-- Embedding of `get_redirect_url`: one fetch through the resolver, its
error wrapped with the `Failed to get url {url}` context. -/
def get_redirect_url (res : Resolver) (url : List Byte) : Except AnyError Url :=
  match res url with
  | .error e => .error (.context (ascii "Failed to get url " ++ url) (.root e))
  | .ok u => .ok u

/-! ## The rewrite rules -/

/-- Embedding of `replace_twitter`: `Regex::replace` (leftmost match only)
with the template `https://c.vxtwitter.com$path`. -/
def replace_twitter (url : List Byte) : List Byte :=
  reReplaceFirst
    (fun t i => (twitterMatchAt t i).map fun m =>
      (m.1, ascii "https://c.vxtwitter.com" ++ extract t m.2.1 m.2.2))
    url

/-- Loop body of `replace_weixin`: parse one matched slice of `text` as a
URL (skipping it when it does not parse), filter its query to the weixin
allowlist, and splice the result into `new_str` at the byte range recorded
against `text`. -/
def weixinStep (text new_str : List Byte) (m : Nat × Nat) : List Byte :=
  match parseUrl (extract text m.1 m.2) with
  | none => new_str
  | some url =>
    replaceRange new_str m.1 m.2 (urlToString (keep_pairs_only_in weixinKeys url))

/-- Embedding of `replace_weixin`: iterate `weixinStep` over the matches
found in the input `text`. -/
def replace_weixin (text : List Byte) : List Byte :=
  (reFindIter weixinMatchAt text).foldl (weixinStep text) text

/-- Embedding of `replace_jd`: `Regex::replace_all` with the template
`$url`. -/
def replace_jd (url : List Byte) : List Byte :=
  reReplaceAll
    (fun t i => (jdMatchAt t i).map fun m => (m.1, extract t i m.2))
    url

/-- Embedding of `replace_amazon`: `Regex::replace_all` with the template
`$domain$path`. -/
def replace_amazon (url : List Byte) : List Byte :=
  reReplaceAll
    (fun t i => (amazonMatchAt t i).map fun m =>
      (m.1, extract t i m.2.1 ++ extract t m.2.2.1 m.2.2.2))
    url

/-- Embedding of `replace_amazon_search`: `Regex::replace_all` with the
template `$domain$keyword`. -/
def replace_amazon_search (url : List Byte) : List Byte :=
  reReplaceAll
    (fun t i => (amazonSearchMatchAt t i).map fun m =>
      (m.1, extract t i m.2.1 ++ extract t m.2.2.1 m.2.2.2))
    url

/-- Embedding of `replace_btrack`: collect `(range, replacement)` pairs
computed against the scanned `text` (skipping match slices that fail URL
parsing), then apply every `replace_range` to the same string in order. -/
def replace_btrack (text : List Byte) : List Byte :=
  let replaces := (reFindIter bvideoMatchAt text).filterMap fun m =>
    (parseUrl (extract text m.1 m.2)).map fun url =>
      (m, urlToString (trim_bili_link url))
  replaces.foldl (fun s mr => replaceRange s mr.1.1 mr.1.2 mr.2) text

/-- Loop body of `replace_bshort`: resolve one match through the resolver
(the `?` operator turning a failure into an early return), trim the resolved
URL to the `p`/`t` parameters, and splice it at the range recorded against
the scanned `str`. -/
def bshortStep (res : Resolver) (str new_str : List Byte) (x : Nat × Nat) :
    Except AnyError (List Byte) :=
  match get_redirect_url res (extract str x.1 x.2) with
  | .error e => .error e
  | .ok url => .ok (replaceRange new_str x.1 x.2 (urlToString (trim_bili_link url)))

/-- Embedding of `replace_bshort`: iterate `bshortStep` over the matches,
aborting on the first resolution failure. -/
def replace_bshort (res : Resolver) (str : List Byte) : Except AnyError (List Byte) :=
  (reFindIter bshortMatchAt str).foldlM (bshortStep res str) str

/-- Loop body of `replace_xiaohongshu`: resolve one match and drop the query
entirely (`set_query(None)`). -/
def xhsStep (res : Resolver) (str new_str : List Byte) (x : Nat × Nat) :
    Except AnyError (List Byte) :=
  match get_redirect_url res (extract str x.1 x.2) with
  | .error e => .error e
  | .ok url => .ok (replaceRange new_str x.1 x.2 (urlToString { url with query := none }))

/-- Embedding of `replace_xiaohongshu`. -/
def replace_xiaohongshu (res : Resolver) (str : List Byte) : Except AnyError (List Byte) :=
  (reFindIter xhsMatchAt str).foldlM (xhsStep res str) str

/-- Loop body of `replace_twitter_short`: resolve one match and splice the
resolved URL unchanged. -/
def tcoStep (res : Resolver) (str new_str : List Byte) (x : Nat × Nat) :
    Except AnyError (List Byte) :=
  match get_redirect_url res (extract str x.1 x.2) with
  | .error e => .error e
  | .ok url => .ok (replaceRange new_str x.1 x.2 (urlToString url))

/-- Embedding of `replace_twitter_short`. -/
def replace_twitter_short (res : Resolver) (str : List Byte) : Except AnyError (List Byte) :=
  (reFindIter tcoMatchAt str).foldlM (tcoStep res str) str

/-- Loop body of `replace_tiktok_share`: resolve one match and drop the query
entirely. -/
def tiktokStep (res : Resolver) (str new_str : List Byte) (x : Nat × Nat) :
    Except AnyError (List Byte) :=
  match get_redirect_url res (extract str x.1 x.2) with
  | .error e => .error e
  | .ok url => .ok (replaceRange new_str x.1 x.2 (urlToString { url with query := none }))

/-- Embedding of `replace_tiktok_share`. -/
def replace_tiktok_share (res : Resolver) (str : List Byte) : Except AnyError (List Byte) :=
  (reFindIter tiktokMatchAt str).foldlM (tiktokStep res str) str

/-- Embedding of `replace_barticle`: `Regex::replace_all` with the template
`https://www.bilibili.com/read/cv$cvid`. -/
def replace_barticle (str : List Byte) : List Byte :=
  reReplaceAll
    (fun t i => (barticleMatchAt t i).map fun m =>
      (m.1, ascii "https://www.bilibili.com/read/cv" ++ extract t m.2.1 m.2.2))
    str

/-- Embedding of `replace_all`: the fixed rule chain, each `.context(..)?` of
the Rust source translated to an explicit match that wraps the error and
returns it. -/
def replace_all (res : Resolver) (text : List Byte) : Except AnyError (List Byte) :=
  match (replace_bshort res text).mapError
      (AnyError.context (ascii "Failed to replace short url")) with
  | .error e => .error e
  | .ok new =>
  match (replace_xiaohongshu res new).mapError
      (AnyError.context (ascii "Failed to replace xiaohongshu url")) with
  | .error e => .error e
  | .ok new =>
  match (replace_twitter_short res new).mapError
      (AnyError.context (ascii "Failed to replace twitter short url")) with
  | .error e => .error e
  | .ok new =>
  match (replace_tiktok_share res new).mapError
      (AnyError.context (ascii "Failed to replace tiktok share url")) with
  | .error e => .error e
  | .ok new =>
    let new := replace_btrack new
    let new := replace_barticle new
    let new := replace_twitter new
    let new := replace_amazon new
    let new := replace_amazon_search new
    let new := replace_weixin new
    let new := replace_jd new
    .ok new

/-! ## Validation of the embedding against the unit tests of replacer.rs

Every network-free test of the `tests` module evaluates in the embedding to
the output the repository asserts. -/

example :
    replace_btrack (ascii "https://www.bilibili.com/video/BV1Hg411T7fT/?spm_id_from=333.788.recommend_more_video.1&vd_source=425ad7d352481d80617a03327da07da0")
      = ascii "https://www.bilibili.com/video/BV1Hg411T7fT/" := by decide

example :
    replace_btrack (ascii "https://www.bilibili.com/video/BV114514/?t=123&p=1&spm=1.2212.22321")
      = ascii "https://www.bilibili.com/video/BV114514/?t=123&p=1" := by decide

example :
    replace_btrack (ascii "https://www.bilibili.com/video/BV114514/?t=123&spm=1.2212.22321")
      = ascii "https://www.bilibili.com/video/BV114514/?t=123" := by decide

example :
    replace_amazon (ascii "https://www.amazon.com/Redragon-S101-Keyboard-Ergonomic-Programmable/dp/B00NLZUM36/ref=sr_1_1?keywords=gaming+keyboard&pd_rd_r=89c237af-e7f2-4af6-b9c4&pd_rd_w=0aaaD&pd_rd_wg=KZWal&pf_rd_p=112312321&pf_rd_r=1233&qid=234231231&qu=eyJxc2MiOinFzcCI6IjYuMjAifQ%3D%3D&sr=8-1")
      = ascii "https://www.amazon.com/dp/B00NLZUM36/" := by decide

example :
    replace_amazon (ascii "https://www.amazon.co.jp/Redragon-S101-Keyboard-Ergonomic-Programmable/dp/B00NLZUM36/ref=sr_1_1?keywords=gaming+keyboard&pd_rd_r=89c237af-e7f2-4af6-b9c4&pd_rd_w=0aaaD&pd_rd_wg=KZWal&pf_rd_p=112312321&pf_rd_r=1233&qid=234231231&qu=eyJxc2MiOinFzcCI6IjYuMjAifQ%3D%3D&sr=8-1")
      = ascii "https://www.amazon.co.jp/dp/B00NLZUM36/" := by decide

example :
    replace_amazon_search (ascii "https://www.amazon.com/s?k=%E4%BD%A0%E5%A5%BD%26+%2B&crid=1SHSKHE0RZCED&sprefix=%E4%BD%A0%E5%A5%BD%26+%2B%2Caps%2C1307&ref=nb_sb_noss_2")
      = ascii "https://www.amazon.com/s?k=%E4%BD%A0%E5%A5%BD%26+%2B" := by decide

example :
    replace_barticle (ascii "https://www.bilibili.com/read/mobile/19172625?xxx=114514&asdfasdf=32394239ADSAD-12312aASDASD")
      = ascii "https://www.bilibili.com/read/cv19172625" := by decide

example :
    replace_twitter (ascii "https://twitter.com/Penny_0571/status/1587323246506528769?s=20&t=0Mzx3uLKTD-kygDQmaXvFq")
      = ascii "https://c.vxtwitter.com/Penny_0571/status/1587323246506528769" := by decide

example :
    replace_weixin (ascii "https://mp.weixin.qq.com/s?__biz=MzIzzMwNjc1NzU==&mid=2650309&idx=114514&sn=2fd9d2a3b0b544a6da&chksm=e8de3b77dfa9b2612b676b21f34a75a79994bfcd4a4#rd")
      = ascii "https://mp.weixin.qq.com/s?__biz=MzIzzMwNjc1NzU%3D%3D&mid=2650309&idx=114514&sn=2fd9d2a3b0b544a6da#rd" := by decide

example :
    replace_jd (ascii "https://item.m.jd.com/product/100026923531.html?&utm_source=iosapp&utm_medium=appshare&utm_campaign=114514&utm_term=CopyURL&ad_od=share&gx=T2nEPztRx6NTRa30RpDCM")
      = ascii "https://item.m.jd.com/product/100026923531.html" := by decide

/-! ## Properties of the query-pair serializer and parser -/

theorem byte_val_of_lt {n : Nat} (h : n < 256) : (byte n).val = n := Nat.mod_eq_of_lt h

theorem hexUpper_isHexB {n : Nat} (h : n < 16) : isHexB (hexUpper n) = true := by
  unfold hexUpper isHexB
  split
  · next h10 =>
    have hv : (byte (48 + n)).val = 48 + n := @byte_val_of_lt (48 + n) (by omega)
    simp only [hv, Bool.or_eq_true, Bool.and_eq_true, decide_eq_true_eq]
    omega
  · next h10 =>
    have hv : (byte (55 + n)).val = 55 + n := @byte_val_of_lt (55 + n) (by omega)
    simp only [hv, Bool.or_eq_true, Bool.and_eq_true, decide_eq_true_eq]
    omega

theorem hexVal_hexUpper {n : Nat} (h : n < 16) : hexVal (hexUpper n) = n := by
  unfold hexUpper hexVal
  split
  · next h10 =>
    have hv : (byte (48 + n)).val = 48 + n := @byte_val_of_lt (48 + n) (by omega)
    simp only [hv]
    rw [if_pos (by omega)]
    omega
  · next h10 =>
    have hv : (byte (55 + n)).val = 55 + n := @byte_val_of_lt (55 + n) (by omega)
    simp only [hv]
    rw [if_neg (by omega), if_pos (by omega)]
    omega

theorem hexUpper_val_ne {n : Nat} (h : n < 16) :
    (hexUpper n).val ≠ 38 ∧ (hexUpper n).val ≠ 61 := by
  unfold hexUpper
  split
  · have hv : (byte (48 + n)).val = 48 + n := @byte_val_of_lt (48 + n) (by omega)
    omega
  · have hv : (byte (55 + n)).val = 55 + n := @byte_val_of_lt (55 + n) (by omega)
    omega

theorem isUnresB_val_ne {b : Byte} (h : isUnresB b = true) :
    b.val ≠ 43 ∧ b.val ≠ 37 ∧ b.val ≠ 38 ∧ b.val ≠ 61 := by
  simp [isUnresB, isAlnumB, isDigitB, isAsciiLetter] at h
  omega

/-- Decoding inverts the encoding of a single byte, in context. -/
theorem decBytes_encByte (b : Byte) (l : List Byte) :
    decBytes (encByte b ++ l) = b :: decBytes l := by
  unfold encByte
  split
  · next h32 =>
    have hb : byte 32 = b := Fin.ext (by simp [byte]; omega)
    simp only [List.cons_append, List.nil_append]
    show decBytesAux (byte 43 :: l).length (byte 43 :: l) = b :: decBytes l
    simp only [List.length_cons, decBytesAux,
      if_pos (show (byte 43).val = 43 by decide)]
    rw [hb]
    rfl
  split
  · next h32 hUn =>
    have hne := isUnresB_val_ne hUn
    simp only [List.cons_append, List.nil_append]
    show decBytesAux (b :: l).length (b :: l) = b :: decBytes l
    simp only [List.length_cons, decBytesAux, if_neg hne.1, if_neg hne.2.1]
    rfl
  · next h32 hUn =>
    have hlt := b.isLt
    have h16a : b.val / 16 < 16 := by omega
    have h16b : b.val % 16 < 16 := by omega
    have hb : byte (b.val / 16 * 16 + b.val % 16) = b := Fin.ext (by simp [byte]; omega)
    simp only [List.cons_append, List.nil_append]
    show decBytesAux
      (byte 37 :: hexUpper (b.val / 16) :: hexUpper (b.val % 16) :: l).length
      (byte 37 :: hexUpper (b.val / 16) :: hexUpper (b.val % 16) :: l) = b :: decBytes l
    simp only [List.length_cons, decBytesAux,
      if_neg (show ¬(byte 37).val = 43 by decide),
      if_pos (show (byte 37).val = 37 by decide),
      if_pos (show (isHexB (hexUpper (b.val / 16)) && isHexB (hexUpper (b.val % 16))) = true by
        rw [hexUpper_isHexB h16a, hexUpper_isHexB h16b]; rfl)]
    rw [hexVal_hexUpper h16a, hexVal_hexUpper h16b, hb,
      decBytesAux_congr (l.length + 1 + 1) l.length l (by omega) (by omega)]
    rfl

theorem decBytes_encBytes_append (s l : List Byte) :
    decBytes (encBytes s ++ l) = s ++ decBytes l := by
  induction s with
  | nil => simp [encBytes]
  | cons b rest ih =>
    rw [encBytes, List.append_assoc, decBytes_encByte]
    simp [ih]

theorem decBytes_encBytes (s : List Byte) : decBytes (encBytes s) = s := by
  have := decBytes_encBytes_append s []
  simpa [decBytes, decBytesAux_nil] using this

theorem mem_encByte_val {b c : Byte} (h : c ∈ encByte b) :
    c.val ≠ 38 ∧ c.val ≠ 61 := by
  unfold encByte at h
  split at h
  · simp at h
    subst h
    exact ⟨by decide, by decide⟩
  split at h
  · next h32 hUn =>
    simp at h
    subst h
    exact ⟨(isUnresB_val_ne hUn).2.2.1, (isUnresB_val_ne hUn).2.2.2⟩
  · next h32 hUn =>
    have hlt := b.isLt
    have h16a : b.val / 16 < 16 := by omega
    have h16b : b.val % 16 < 16 := by omega
    simp at h
    rcases h with h | h | h
    · subst h
      exact ⟨by decide, by decide⟩
    · subst h
      exact hexUpper_val_ne h16a
    · subst h
      exact hexUpper_val_ne h16b

theorem not_mem_encBytes_38 (s : List Byte) : byte 38 ∉ encBytes s := by
  induction s with
  | nil => simp [encBytes]
  | cons b rest ih =>
    rw [encBytes]
    simp only [List.mem_append]
    rintro (h | h)
    · exact (mem_encByte_val h).1 (by decide)
    · exact ih h

theorem not_mem_encBytes_61 (s : List Byte) : byte 61 ∉ encBytes s := by
  induction s with
  | nil => simp [encBytes]
  | cons b rest ih =>
    rw [encBytes]
    simp only [List.mem_append]
    rintro (h | h)
    · exact (mem_encByte_val h).2 (by decide)
    · exact ih h

/-- Splitting at the first `=` recovers the two encoded halves. -/
theorem splitEq_append (a b : List Byte) (ha : byte 61 ∉ a) :
    splitEq (a ++ byte 61 :: b) = (a, b) := by
  induction a with
  | nil => rw [List.nil_append, splitEq, if_pos (by decide)]
  | cons x rest ih =>
    have hx : x ≠ byte 61 := fun h => ha (by simp [h])
    have hxv : ¬(x.val = 61) := by
      intro hv
      exact hx (Fin.ext (by simp [byte]; omega))
    rw [List.cons_append, splitEq]
    simp only [if_neg hxv]
    rw [ih fun h => ha (List.mem_cons_of_mem _ h)]

/-- The serialized segment of one pair. -/
def pairSeg (p : List Byte × List Byte) : List Byte :=
  encBytes p.1 ++ byte 61 :: encBytes p.2

theorem pairSeg_ne_nil (p : List Byte × List Byte) : pairSeg p ≠ [] := by
  simp [pairSeg]

theorem amp_not_mem_pairSeg (p : List Byte × List Byte) : byte 38 ∉ pairSeg p := by
  unfold pairSeg
  simp only [List.mem_append, List.mem_cons]
  rintro (h | h | h)
  · exact not_mem_encBytes_38 _ h
  · exact absurd h (by decide)
  · exact not_mem_encBytes_38 _ h

theorem parse_pairSeg (p : List Byte × List Byte) :
    (decBytes (splitEq (pairSeg p)).1, decBytes (splitEq (pairSeg p)).2) = p := by
  unfold pairSeg
  rw [splitEq_append _ _ (not_mem_encBytes_61 _)]
  simp [decBytes_encBytes]

/-- The form-urlencoded parser inverts the serializer exactly. -/
theorem parseQueryRaw_serializePairs (ps : List (List Byte × List Byte)) :
    parseQueryRaw (serializePairs ps) = ps := by
  cases ps with
  | nil => rfl
  | cons p rest =>
    unfold parseQueryRaw serializePairs
    have hsegs : (p :: rest).map pairSeg ≠ [] := by simp
    have hx : ∀ l ∈ (p :: rest).map pairSeg, byte 38 ∉ l := by
      intro l hl
      rcases List.mem_map.mp hl with ⟨q, _, rfl⟩
      exact amp_not_mem_pairSeg q
    rw [show (((p :: rest).map fun q => encBytes q.1 ++ byte 61 :: encBytes q.2)) =
      ((p :: rest).map pairSeg) from rfl]
    rw [List.splitOn_intercalate ((p :: rest).map pairSeg) (byte 38) hx hsegs]
    rw [List.filter_eq_self.mpr (by
      intro a ha
      rcases List.mem_map.mp ha with ⟨q, _, rfl⟩
      simp [pairSeg_ne_nil q])]
    rw [List.map_map]
    have hmap : ∀ (l : List (List Byte × List Byte)),
        (l.map fun seg => (decBytes (splitEq (pairSeg seg)).1,
          decBytes (splitEq (pairSeg seg)).2)) = l := by
      intro l
      induction l with
      | nil => rfl
      | cons q qrest ih => simp [parse_pairSeg]
    exact hmap (p :: rest)

theorem serializePairs_nil : serializePairs [] = [] := rfl

theorem parseQueryRaw_nil : parseQueryRaw [] = [] := rfl

theorem queryPairs_update (u : Url) (q : Option (List Byte)) :
    Url.queryPairs { u with query := q } = parseQueryRaw (q.getD []) := rfl

theorem remove_pairs_if_key_eq (pred : List Byte → Bool) (u : Url) :
    remove_pairs_if_key pred u
      = { u with query :=
            if serializePairs (u.queryPairs.filter fun p => !pred p.1) = [] then none
            else some (serializePairs (u.queryPairs.filter fun p => !pred p.1)) } := rfl

/-- The filtered pairs of the rewritten URL are recovered exactly by
`query_pairs` (re-parse of the re-serialization). -/
theorem queryPairs_remove_pairs_if_key (pred : List Byte → Bool) (u : Url) :
    (remove_pairs_if_key pred u).queryPairs
      = u.queryPairs.filter fun p => !pred p.1 := by
  rw [remove_pairs_if_key_eq]
  by_cases hC : serializePairs (u.queryPairs.filter fun p => !pred p.1) = []
  · rw [if_pos hC, queryPairs_update]
    have h2 := parseQueryRaw_serializePairs (u.queryPairs.filter fun p => !pred p.1)
    rw [hC, parseQueryRaw_nil] at h2
    exact h2
  · rw [if_neg hC, queryPairs_update]
    simp [parseQueryRaw_serializePairs]

theorem remove_pairs_if_key_idem (pred : List Byte → Bool) (u : Url) :
    remove_pairs_if_key pred (remove_pairs_if_key pred u)
      = remove_pairs_if_key pred u := by
  have hkk : ((u.queryPairs.filter fun p => !pred p.1).filter fun p => !pred p.1)
      = u.queryPairs.filter fun p => !pred p.1 :=
    List.filter_eq_self.mpr fun a ha => (List.mem_filter.mp ha).2
  by_cases hC : serializePairs (u.queryPairs.filter fun p => !pred p.1) = []
  · rw [remove_pairs_if_key_eq pred u, if_pos hC, remove_pairs_if_key_eq]
    simp only [queryPairs_update, Option.getD_none, parseQueryRaw_nil,
      List.filter_nil, serializePairs_nil, if_pos rfl, if_true]
  · rw [remove_pairs_if_key_eq pred u, if_neg hC, remove_pairs_if_key_eq]
    simp only [queryPairs_update, Option.getD_some, parseQueryRaw_serializePairs,
      hkk, if_neg hC]

/-- C3: the query-param filter retains exactly the pairs whose key is in the
allowlist (case-sensitive byte equality, `Vec::contains`), in their original
relative order (`List.filter` preserves order), and when no pair survives the
resulting URL has no query component at all. -/
theorem filter_retains_exactly_allowlisted (u : Url) (keys : List (List Byte)) :
    (keep_pairs_only_in keys u).queryPairs
        = u.queryPairs.filter (fun p => keys.contains p.1)
      ∧ (u.queryPairs.filter (fun p => keys.contains p.1) = [] →
        (keep_pairs_only_in keys u).query = none) := by
  constructor
  · rw [keep_pairs_only_in, queryPairs_remove_pairs_if_key]
    simp
  · intro hemp
    rw [keep_pairs_only_in, remove_pairs_if_key_eq]
    have hemp2 : (u.queryPairs.filter fun p => !(!keys.contains p.1)) = [] := by
      simpa using hemp
    rw [hemp2, serializePairs_nil, if_pos rfl]

def c3Url : Url :=
  { scheme := ascii "https", username := [], password := none,
    host := ascii "mp.weixin.qq.com", port := none, path := ascii "/s",
    query := some (ascii "spm=1&from=timeline"), fragment := none,
    cannotBeABase := false }

theorem filter_retains_exactly_allowlisted_witness :
    (keep_pairs_only_in weixinKeys c3Url).queryPairs = []
      ∧ (keep_pairs_only_in weixinKeys c3Url).query = none :=
  ⟨(filter_retains_exactly_allowlisted c3Url weixinKeys).1.trans (by decide),
   (filter_retains_exactly_allowlisted c3Url weixinKeys).2 (by decide)⟩

/-- C4: the query-param filter is idempotent; filtering an already-filtered
URL with the same allowlist is a no-op. -/
theorem filter_idempotent (u : Url) (keys : List (List Byte)) :
    keep_pairs_only_in keys (keep_pairs_only_in keys u)
      = keep_pairs_only_in keys u := by
  unfold keep_pairs_only_in
  exact remove_pairs_if_key_idem _ u

/-- C9: the query-param filter modifies only the query component; scheme,
username, password, host, port, path and fragment of the result equal those
of the input URL. -/
theorem filter_touches_only_query (pred : List Byte → Bool) (u : Url) :
    (remove_pairs_if_key pred u).scheme = u.scheme
      ∧ (remove_pairs_if_key pred u).username = u.username
      ∧ (remove_pairs_if_key pred u).password = u.password
      ∧ (remove_pairs_if_key pred u).host = u.host
      ∧ (remove_pairs_if_key pred u).port = u.port
      ∧ (remove_pairs_if_key pred u).path = u.path
      ∧ (remove_pairs_if_key pred u).fragment = u.fragment :=
  ⟨rfl, rfl, rfl, rfl, rfl, rfl, rfl⟩

def c5Url : Url :=
  { scheme := ascii "https", username := [], password := none,
    host := ascii "mp.weixin.qq.com", port := none, path := ascii "/s",
    query := some (ascii "__biz=a==&chksm=x"), fragment := none,
    cannotBeABase := false }

/-- C5 counterexample: the allowed pair `__biz=a==` is not preserved
byte-identically; re-serialization percent-encodes its value, so the output
query is `__biz=a%3D%3D`, not `__biz=a==`. -/
theorem filter_not_byte_identical_counterexample :
    (keep_pairs_only_in weixinKeys c5Url).query ≠ some (ascii "__biz=a==")
      ∧ (keep_pairs_only_in weixinKeys c5Url).query = some (ascii "__biz=a%3D%3D") := by
  constructor
  · decide
  · decide

/-- C5 (amended): filtering removes exactly the pairs with keys outside the
allowlist and preserves the allowed pairs as decoded key/value pairs (not
byte-identical text), keeping their original relative order (the surviving
pair list is a sublist of the input pair list). -/
theorem filter_preserves_decoded_pairs (u : Url) (keys : List (List Byte)) :
    (∀ p ∈ u.queryPairs, keys.contains p.1 = true →
        p ∈ (keep_pairs_only_in keys u).queryPairs)
      ∧ (∀ p ∈ (keep_pairs_only_in keys u).queryPairs, keys.contains p.1 = true)
      ∧ (keep_pairs_only_in keys u).queryPairs.Sublist u.queryPairs := by
  have hq : (keep_pairs_only_in keys u).queryPairs
      = u.queryPairs.filter (fun p => keys.contains p.1) := by
    rw [keep_pairs_only_in, queryPairs_remove_pairs_if_key]
    simp
  refine ⟨?_, ?_, ?_⟩
  · intro p hp hk
    rw [hq]
    exact List.mem_filter.mpr ⟨hp, hk⟩
  · intro p hp
    rw [hq] at hp
    exact (List.mem_filter.mp hp).2
  · rw [hq]
    exact List.filter_sublist _

theorem filter_preserves_decoded_pairs_witness :
    (ascii "__biz", ascii "a==") ∈ (keep_pairs_only_in weixinKeys c5Url).queryPairs
      ∧ (∀ p ∈ (keep_pairs_only_in weixinKeys c5Url).queryPairs,
          weixinKeys.contains p.1 = true) :=
  ⟨(filter_preserves_decoded_pairs c5Url weixinKeys).1 (ascii "__biz", ascii "a==")
      (by decide) (by decide),
   (filter_preserves_decoded_pairs c5Url weixinKeys).2.1⟩

/-! ## Facts about the match iterator and the rule loops -/

theorem findFromAux_matchAt (f : List Byte → Nat → Option Nat) (t : List Byte) :
    ∀ (fuel i j len : Nat), findFromAux f t fuel i = some (j, len) → f t j = some len := by
  intro fuel
  induction fuel with
  | zero => intro i j len h; cases h
  | succ fuel ih =>
    intro i j len h
    rw [findFromAux] at h
    cases hf : f t i with
    | some l2 =>
      rw [hf] at h
      simp only [Option.some.injEq, Prod.mk.injEq] at h
      obtain ⟨rfl, rfl⟩ := h
      exact hf
    | none =>
      rw [hf] at h
      by_cases hlt : i < t.length
      · rw [if_pos hlt] at h
        exact ih _ _ _ h
      · rw [if_neg hlt] at h
        cases h

/-- Every match produced by `find_iter` is a match of the pattern at its
recorded position. -/
theorem reFindIter_matchAt (f : List Byte → Nat → Option Nat) (t : List Byte) :
    ∀ m ∈ reFindIter f t, f t m.1 = some m.2 := by
  suffices h : ∀ fuel i m, m ∈ findIterAux f t fuel i → f t m.1 = some m.2 by
    intro m hm
    exact h _ _ m hm
  intro fuel
  induction fuel with
  | zero => intro i m h; cases h
  | succ fuel ih =>
    intro i m h
    rw [findIterAux] at h
    cases hf : findFromAux f t (t.length + 1 - i) i with
    | none => rw [hf] at h; cases h
    | some jl =>
      obtain ⟨j, len⟩ := jl
      rw [hf] at h
      rcases List.mem_cons.mp h with rfl | h2
      · exact findFromAux_matchAt f t _ _ _ _ hf
      · exact ih _ m h2

/-- A rule loop that skips every match leaves the text unchanged
(`replace_weixin` with every parse failing). -/
theorem weixin_fold_skip (text : List Byte) :
    ∀ (ms : List (Nat × Nat)) (acc : List Byte),
      (∀ m ∈ ms, parseUrl (extract text m.1 m.2) = none) →
      ms.foldl (weixinStep text) acc = acc := by
  intro ms
  induction ms with
  | nil => intro acc _; rfl
  | cons m0 ms ih =>
    intro acc h
    rw [List.foldl_cons]
    have h0 : weixinStep text acc m0 = acc := by
      rw [weixinStep, h m0 (by simp)]
    rw [h0]
    exact ih acc fun m hm => h m (List.mem_cons_of_mem _ hm)

/-- The `replace_bshort` loop returns an error as soon as some match fails to
resolve (the resolver is a pure function, so the first failing match is
reached after the earlier matches succeed). -/
theorem bshort_fold_error (res : Resolver) (t : List Byte) :
    ∀ (ms : List (Nat × Nat)) (acc : List Byte),
      (∃ m ∈ ms, ∃ e, res (extract t m.1 m.2) = .error e) →
      ∃ e2, ms.foldlM (bshortStep res t) acc = (.error e2 : Except AnyError (List Byte)) := by
  intro ms
  induction ms with
  | nil =>
    intro acc h
    simp at h
  | cons m0 ms ih =>
    intro acc h
    rw [List.foldlM_cons]
    cases hres : res (extract t m0.1 m0.2) with
    | error e =>
      refine ⟨.context (ascii "Failed to get url " ++ extract t m0.1 m0.2) (.root e), ?_⟩
      simp [bshortStep, get_redirect_url, hres, Bind.bind, Except.bind]
    | ok u =>
      rcases h with ⟨m, hm, e, he⟩
      rcases List.mem_cons.mp hm with rfl | hm2
      · rw [hres] at he
        cases he
      · rcases ih (replaceRange acc m0.1 m0.2 (urlToString (trim_bili_link u)))
          ⟨m, hm2, e, he⟩ with ⟨e2, h2⟩
        refine ⟨e2, ?_⟩
        simp only [bshortStep, get_redirect_url, hres, Bind.bind, Except.bind]
        exact h2

/-! ## C8: the not-preceded-by-letter boundary -/

theorem boundaryOpts_empty (t : List Byte) (i : Nat) (hi : 0 < i)
    (hlet : isAsciiLetter (t.getD (i - 1) (byte 0)) = true)
    (hs : litHead httpsLit (t.drop i) = false)
    (hh : litHead httpLit (t.drop i) = false) :
    boundaryOpts t i = [] := by
  unfold boundaryOpts
  have hlet2 : isAsciiLetter ((t[i - 1]?).getD (byte 0)) = true := by
    simpa using hlet
  simp [hs, hh, hlet2, (by omega : ¬i = 0)]
  omega

/-- C8 (amended): the twitter.com and bilibili.com/video patterns enforce the
not-preceded-by-letter boundary: at a position whose preceding byte is an
ASCII letter, and where no scheme literal `https://`/`http://` starts, no
match begins (in particular no match starts at the `twitter.com` substring
inside `vxtwitter.com`). The b23.tv pattern is exempt, since its boundary
group is optional (see the counterexample). -/
theorem boundary_not_preceded_by_letter (t : List Byte) (i : Nat) (hi : 0 < i)
    (hlet : isAsciiLetter (t.getD (i - 1) (byte 0)) = true)
    (hs : litHead httpsLit (t.drop i) = false)
    (hh : litHead httpLit (t.drop i) = false) :
    twitterMatchAt t i = none ∧ bvideoMatchAt t i = none := by
  have hb := boundaryOpts_empty t i hi hlet hs hh
  constructor
  · rw [twitterMatchAt, hb]
    rfl
  · rw [bvideoMatchAt, hb]
    rfl

theorem boundary_not_preceded_by_letter_witness :
    twitterMatchAt (ascii "https://vxtwitter.com/a/status/1") 10 = none
      ∧ bvideoMatchAt (ascii "https://vxtwitter.com/a/status/1") 10 = none :=
  boundary_not_preceded_by_letter (ascii "https://vxtwitter.com/a/status/1") 10
    (by decide) (by decide) (by decide) (by decide)

/-- C8 counterexample: the boundary group of `BSHORT_REGEX` is optional
(`(https?://|(?<![a-zA-Z]{1})|^)?`), so the b23.tv pattern does produce a
match that starts at the bare domain right after an ASCII letter: in
`ab23.tv/xyz` the single match starts at position 1, preceded by the letter
`a` and with no scheme literal at the match start. -/
theorem bshort_matches_after_letter_counterexample :
    bshortMatchAt (ascii "ab23.tv/xyz") 1 = some 10
      ∧ isAsciiLetter ((ascii "ab23.tv/xyz").getD 0 (byte 0)) = true
      ∧ litHead httpsLit ((ascii "ab23.tv/xyz").drop 1) = false
      ∧ litHead httpLit ((ascii "ab23.tv/xyz").drop 1) = false
      ∧ reFindIter bshortMatchAt (ascii "ab23.tv/xyz") = [(1, 10)] := by
  decide

/-! ## C10: scheme-less bare-domain matches -/

theorem firstSome_zeros {α : Type} (opts : List Nat) (f : Nat → Option α) (r : α)
    (hz : ∀ a ∈ opts, a = 0) (h : firstSome opts f = some r) : f 0 = some r := by
  induction opts with
  | nil => cases h
  | cons a rest ih =>
    rw [firstSome] at h
    have ha : a = 0 := hz a (by simp)
    subst ha
    cases hf : f 0 with
    | some v =>
      rw [hf] at h
      exact h
    | none =>
      rw [hf] at h
      exact hf ▸ ih (fun b hb => hz b (List.mem_cons_of_mem _ hb)) h

theorem boundaryOpts_zeros (t : List Byte) (i : Nat)
    (hs : litHead httpsLit (t.drop i) = false)
    (hh : litHead httpLit (t.drop i) = false) :
    ∀ a ∈ boundaryOpts t i, a = 0 := by
  intro a ha
  unfold boundaryOpts at ha
  rw [hs, hh] at ha
  rw [if_neg (by simp : ¬(false = true)), if_neg (by simp : ¬(false = true))] at ha
  rw [List.nil_append, List.nil_append] at ha
  rcases List.mem_append.mp ha with h1 | h1
  · split at h1
    · simpa using h1
    · split at h1
      · cases h1
      · simpa using h1
  · split at h1
    · simpa using h1
    · cases h1

/-- A string starting with the bare literal `mp.weixin.qq.com/s` has no
scheme (the scheme scan stops at the `/` before any `:`), so URL parsing
fails on it. -/
theorem parseUrl_weixin_bare (rest : List Byte) : parseUrl (weixinLit ++ rest) = none := rfl

theorem parseUrl_weixinLit_prefix (u : List Byte)
    (hu : u.take weixinLit.length = weixinLit) : parseUrl u = none := by
  have h := List.take_append_drop weixinLit.length u
  rw [hu] at h
  rw [← h]
  exact parseUrl_weixin_bare _

/-- A weixin match that begins with neither scheme literal starts with the
bare `mp.weixin.qq.com/s` and fails URL parsing. -/
theorem weixin_bare_unparseable (t : List Byte) (i len : Nat)
    (hm : weixinMatchAt t i = some len)
    (hs : litHead httpsLit (t.drop i) = false)
    (hh : litHead httpLit (t.drop i) = false) :
    parseUrl (extract t i len) = none := by
  have hz := boundaryOpts_zeros t i hs hh
  have hf := firstSome_zeros _ _ _ hz hm
  simp only [Nat.add_zero] at hf
  by_cases hw : litHead weixinLit (t.drop i) = true
  · rw [if_pos hw] at hf
    simp only [Option.some.injEq] at hf
    have hlen : weixinLit.length ≤ len := by omega
    have ht : (extract t i len).take weixinLit.length = weixinLit := by
      unfold extract
      rw [List.take_take, Nat.min_eq_left hlen]
      unfold litHead at hw
      exact of_decide_eq_true hw
    exact parseUrl_weixinLit_prefix _ ht
  · rw [if_neg hw] at hf
    cases hf

/-- C10: the bare-domain alternative of the weixin and bilibili-video
patterns deliberately matches scheme-less text. A weixin match that starts
with neither `https://` nor `http://` begins with the bare
`mp.weixin.qq.com/s` and fails absolute-URL parsing; a rule all of whose
match slices fail URL parsing skips every match and leaves the text
unchanged (for both `replace_weixin` and `replace_btrack`), so bare-domain
links are matched but never canonicalized by these rules. -/
theorem bare_domain_matches_skipped :
    (∀ (t : List Byte) (i len : Nat), weixinMatchAt t i = some len →
        litHead httpsLit (t.drop i) = false → litHead httpLit (t.drop i) = false →
        parseUrl (extract t i len) = none)
      ∧ (∀ t : List Byte,
          (∀ m ∈ reFindIter weixinMatchAt t,
            litHead httpsLit (t.drop m.1) = false ∧ litHead httpLit (t.drop m.1) = false) →
          replace_weixin t = t)
      ∧ (∀ t : List Byte,
          (∀ m ∈ reFindIter bvideoMatchAt t, parseUrl (extract t m.1 m.2) = none) →
          replace_btrack t = t) := by
  refine ⟨weixin_bare_unparseable, ?_, ?_⟩
  · intro t h
    rw [replace_weixin]
    refine weixin_fold_skip t _ t fun m hm => ?_
    exact weixin_bare_unparseable t m.1 m.2 (reFindIter_matchAt weixinMatchAt t m hm)
      (h m hm).1 (h m hm).2
  · intro t h
    simp only [replace_btrack]
    rw [List.filterMap_eq_nil_iff.mpr fun m hm => by rw [h m hm]; rfl]
    rfl

theorem bare_domain_matches_skipped_witness :
    replace_weixin (ascii "mp.weixin.qq.com/s?x=1&y=2") = ascii "mp.weixin.qq.com/s?x=1&y=2"
      ∧ reFindIter weixinMatchAt (ascii "mp.weixin.qq.com/s?x=1&y=2") ≠ []
      ∧ replace_btrack (ascii "bilibili.com/video/BV17x411w7KC/?spm_id_from=333")
          = ascii "bilibili.com/video/BV17x411w7KC/?spm_id_from=333" :=
  ⟨bare_domain_matches_skipped.2.1 _ (by decide), by decide,
   bare_domain_matches_skipped.2.2 _ (by decide)⟩

/-! ## C7: malformed matches are skipped, the call still succeeds -/

/-- C7: a matched span whose text does not parse as a structurally valid URL
is skipped: when every match of a filter-based rule fails URL parsing the
rule returns its input unchanged (it cannot fail by type, returning a plain
string); and `replace_all` — whose only failure sources are the four
resolver-backed rules — still returns `Ok` on such a text. -/
theorem malformed_url_skipped (t : List Byte) :
    ((∀ m ∈ reFindIter weixinMatchAt t, parseUrl (extract t m.1 m.2) = none) →
        replace_weixin t = t)
      ∧ ((∀ m ∈ reFindIter bvideoMatchAt t, parseUrl (extract t m.1 m.2) = none) →
        replace_btrack t = t)
      ∧ (∀ res : Resolver,
          reFindIter bshortMatchAt t = [] → reFindIter xhsMatchAt t = [] →
          reFindIter tcoMatchAt t = [] → reFindIter tiktokMatchAt t = [] →
          ∃ out, replace_all res t = .ok out) := by
  refine ⟨?_, ?_, ?_⟩
  · intro h
    rw [replace_weixin]
    exact weixin_fold_skip t _ t h
  · intro h
    simp only [replace_btrack]
    rw [List.filterMap_eq_nil_iff.mpr fun m hm => by rw [h m hm]; rfl]
    rfl
  · intro res h1 h2 h3 h4
    have hb : replace_bshort res t = .ok t := by rw [replace_bshort, h1]; rfl
    have hx : replace_xiaohongshu res t = .ok t := by rw [replace_xiaohongshu, h2]; rfl
    have htc : replace_twitter_short res t = .ok t := by rw [replace_twitter_short, h3]; rfl
    have htk : replace_tiktok_share res t = .ok t := by rw [replace_tiktok_share, h4]; rfl
    refine ⟨replace_jd (replace_weixin (replace_amazon_search (replace_amazon
      (replace_twitter (replace_barticle (replace_btrack t)))))), ?_⟩
    simp only [replace_all, hb, hx, htc, htk, Except.mapError]

theorem malformed_url_skipped_witness :
    replace_weixin (ascii "mp.weixin.qq.com/s?a=b") = ascii "mp.weixin.qq.com/s?a=b"
      ∧ ∃ out, replace_all (fun _ => .error [])
          (ascii "mp.weixin.qq.com/s?a=b") = .ok out :=
  ⟨(malformed_url_skipped (ascii "mp.weixin.qq.com/s?a=b")).1 (by decide),
   (malformed_url_skipped (ascii "mp.weixin.qq.com/s?a=b")).2.2 _
     (by decide) (by decide) (by decide) (by decide)⟩

/-! ## C6: resolution failure aborts the whole pipeline -/

/-- C6: when redirect resolution fails for a match of the b23.tv rule, the
error propagates up through `replace_all` as an `Err` wrapped with the
`Failed to replace short url` context, aborting the remaining rule chain, so
the caller receives no partially rewritten text (the `Err` carries no text;
the caller in event.rs then leaves the original message untouched). -/
theorem network_error_aborts_replace_all (res : Resolver) (t : List Byte)
    (m : Nat × Nat) (e : List Byte) (hm : m ∈ reFindIter bshortMatchAt t)
    (he : res (extract t m.1 m.2) = .error e) :
    ∃ e2, replace_all res t
      = .error (.context (ascii "Failed to replace short url") e2) := by
  rcases bshort_fold_error res t (reFindIter bshortMatchAt t) t ⟨m, hm, e, he⟩
    with ⟨e2, h2⟩
  refine ⟨e2, ?_⟩
  have hb : replace_bshort res t = .error e2 := h2
  rw [replace_all, hb]
  rfl

theorem network_error_aborts_replace_all_witness :
    ∃ e2, replace_all (fun _ => .error (ascii "timeout")) (ascii "https://b23.tv/lBI8Ov3")
      = .error (.context (ascii "Failed to replace short url") e2) :=
  network_error_aborts_replace_all (fun _ => .error (ascii "timeout"))
    (ascii "https://b23.tv/lBI8Ov3") (0, 22) (ascii "timeout") (by decide) rfl

/-! ## C1: stale byte ranges corrupt multi-match texts -/

/-- C1: evaluation of the hazard at a concrete failing input. The text holds
two weixin URLs; both matches `(0, 36)` and `(39, 30)` are recorded against
the original text, but the first replacement lengthens the string by four
bytes (`__biz=a==` is re-encoded as `__biz=a%3D%3D`), after which the second
recorded range is spliced against the shifted string, corrupting the output.
A correct rewrite would give
`https://mp.weixin.qq.com/s?__biz=a%3D%3D&& https://mp.weixin.qq.com/s`. -/
theorem replace_all_stale_range_corruption :
    replace_all (fun _ => .error [])
        (ascii "https://mp.weixin.qq.com/s?__biz=a==&& https://mp.weixin.qq.com/s?b=2")
        = .ok (ascii "https://mp.weixin.qq.com/s?__biz=a%3D%3https://mp.weixin.qq.com/s?b=2")
      ∧ reFindIter weixinMatchAt
          (ascii "https://mp.weixin.qq.com/s?__biz=a==&& https://mp.weixin.qq.com/s?b=2")
          = [(0, 36), (39, 30)]
      ∧ (ascii "https://mp.weixin.qq.com/s?__biz=a%3D%3https://mp.weixin.qq.com/s?b=2"
          ≠ ascii "https://mp.weixin.qq.com/s?__biz=a%3D%3D&& https://mp.weixin.qq.com/s") := by
  refine ⟨by decide, by decide, by decide⟩

/-! ## C2: one rule application and the number of matches it rewrites -/

/-- C2: evaluation showing that `replace_twitter` uses `Regex::replace`,
which rewrites only the leftmost of its two matches (the second twitter URL
is returned untouched), while `replace_jd` uses `Regex::replace_all` and
rewrites both of its matches. -/
theorem replace_twitter_rewrites_only_first :
    reFindIter (fun t i => (twitterMatchAt t i).map (fun m => m.1))
        (ascii "https://twitter.com/a/status/1?s=20&&https://twitter.com/b/status/2?t=9")
        = [(0, 35), (37, 34)]
      ∧ replace_twitter
          (ascii "https://twitter.com/a/status/1?s=20&&https://twitter.com/b/status/2?t=9")
        = ascii "https://c.vxtwitter.com/a/status/1&&https://twitter.com/b/status/2?t=9"
      ∧ replace_jd
          (ascii "https://item.jd.com/product/1.html?a=b&&https://item.jd.com/product/2.html?c=d")
        = ascii "https://item.jd.com/product/1.html&&https://item.jd.com/product/2.html" := by
  refine ⟨by decide, by decide, by decide⟩
